import Mathlib

/-!
Verification development for the gori repository scanner.

The definitions below are a shallow embedding of the program's data model and
operations: the suppression ("snooze") engine, duration parsing, the upstream
resolver and mainish-branch locator over a model of a git repository, and the
scan orchestrator's ordered result delivery.  Machine integers are modelled as
Nat/Int with explicit bounds where the source checks for overflow; filesystem
paths follow Go's lexical path rules (Unix separator).
-/

/-! ## Filesystem path model (Go `path/filepath`, Unix rules)

`goClean` is Go's `filepath.Clean`, `goJoin` is the two-argument
`filepath.Join`, and `goAbs cwd p` is `filepath.Abs` with the process working
directory `cwd` passed explicitly (Go reads it from the environment). -/

/-- Structurally recursive prefix test (Go `strings.HasPrefix`). -/
def listHasPrefix : List Char → List Char → Bool
  | [], _ => true
  | _ :: _, [] => false
  | p :: ps, c :: cs => p = c && listHasPrefix ps cs

def strHasPrefix (pre s : String) : Bool := listHasPrefix pre.toList s.toList

/-- Split on the path separator, keeping empty fields (Go `strings.Split`
semantics as used through `filepath.Clean`'s component walk). -/
def splitSlashAux : List Char → List Char → List String
  | cur, [] => [String.mk cur.reverse]
  | cur, c :: rest =>
    if c = '/' then String.mk cur.reverse :: splitSlashAux [] rest
    else splitSlashAux (c :: cur) rest

def splitSlash (s : String) : List String := splitSlashAux [] s.toList

def isAbsPath (p : String) : Bool := strHasPrefix ("/") p

/-- Stack-based processing of path components, as in Go's `filepath.Clean`:
empty and `.` components are dropped, `..` pops a previous component (or is
kept at the start of a relative path, or dropped at the root of an absolute
path). -/
def cleanAux (rooted : Bool) : List String → List String → List String
  | acc, [] => acc.reverse
  | acc, c :: rest =>
    if c = ("") ∨ c = (".") then cleanAux rooted acc rest
    else if c = ("..") then
      match acc with
      | [] => if rooted then cleanAux rooted [] rest else cleanAux rooted [c] rest
      | top :: acc' =>
        if top = ("..") then cleanAux rooted (c :: top :: acc') rest
        else cleanAux rooted acc' rest
    else cleanAux rooted (c :: acc) rest

def goClean (p : String) : String :=
  let rooted := isAbsPath p
  let comps := cleanAux rooted [] (splitSlash p)
  if comps = [] then (if rooted then ("/") else ("."))
  else (if rooted then ("/") else ("")) ++ String.intercalate ("/") comps

def goJoin (a b : String) : String :=
  if a = ("") then (if b = ("") then ("") else goClean b)
  else if b = ("") then goClean a
  else goClean (a ++ ("/") ++ b)

def goAbs (cwd p : String) : String := if isAbsPath p then goClean p else goJoin cwd p

/-! ## Timestamps (Go `time`, layout `time.DateTime` = "2006-01-02 15:04:05")

A parsed wall-clock time in UTC.  `DateTime.key` is a strictly monotone
mixed-radix encoding of the instant (valid fields satisfy `month ≤ 12`,
`day ≤ 31`, `hour ≤ 23`, `minute ≤ 59`, `second ≤ 59`, so the radixes
13/32/24/60/60 make `key` agree with chronological order). -/

structure DateTime where
  year : Nat
  month : Nat
  day : Nat
  hour : Nat
  minute : Nat
  second : Nat
deriving DecidableEq

def DateTime.key (t : DateTime) : Nat :=
  t.second + 60 * (t.minute + 60 * (t.hour + 24 * (t.day + 32 * (t.month + 13 * t.year))))

/-- `t` is chronologically strictly after `now` (lexicographic on the calendar
fields, which for valid datetimes is the instant order). -/
def DateTime.After (t now : DateTime) : Prop :=
  now.year < t.year ∨ (now.year = t.year ∧
    (now.month < t.month ∨ (now.month = t.month ∧
      (now.day < t.day ∨ (now.day = t.day ∧
        (now.hour < t.hour ∨ (now.hour = t.hour ∧
          (now.minute < t.minute ∨ (now.minute = t.minute ∧
            now.second < t.second)))))))))

instance (t now : DateTime) : Decidable (t.After now) := by
  unfold DateTime.After; infer_instance

def num2 : List Char → Option (Nat × List Char)
  | a :: b :: rest =>
    if a.isDigit ∧ b.isDigit then some ((a.toNat - 48) * 10 + (b.toNat - 48), rest) else none
  | _ => none

def num4 : List Char → Option (Nat × List Char)
  | a :: b :: c :: d :: rest =>
    if a.isDigit ∧ b.isDigit ∧ c.isDigit ∧ d.isDigit then
      some ((((a.toNat - 48) * 10 + (b.toNat - 48)) * 10 + (c.toNat - 48)) * 10 + (d.toNat - 48),
        rest)
    else none
  | _ => none

/-- Go's `getnum` with `fixed = false` (layout element `15`): one digit, or two
if the second character is also a digit. -/
def num1or2 : List Char → Option (Nat × List Char)
  | [] => none
  | [a] => if a.isDigit then some (a.toNat - 48, []) else none
  | a :: b :: rest =>
    if a.isDigit then
      if b.isDigit then some ((a.toNat - 48) * 10 + (b.toNat - 48), rest)
      else some (a.toNat - 48, b :: rest)
    else none

def lit1 (c : Char) : List Char → Option (List Char)
  | [] => none
  | a :: rest => if a = c then some rest else none

def isLeapYear (y : Nat) : Bool := y % 4 = 0 ∧ (y % 100 ≠ 0 ∨ y % 400 = 0)

def daysIn (month year : Nat) : Nat :=
  if month = 2 then (if isLeapYear year then 29 else 28)
  else if month = 4 ∨ month = 6 ∨ month = 9 ∨ month = 11 then 30
  else 31

/-- Range validation of the parsed fields.  Go's `time.Parse` checks the
month/hour/minute/second ranges while scanning the corresponding layout
elements and the day range after the scan; the acceptance condition is the
same. -/
def mkDateTime (y mo d h mi s : Nat) : Option DateTime :=
  if 1 ≤ mo ∧ mo ≤ 12 ∧ h ≤ 23 ∧ mi ≤ 59 ∧ s ≤ 59 ∧ 1 ≤ d ∧ d ≤ daysIn mo y then
    some ⟨y, mo, d, h, mi, s⟩
  else none

/-- `time.Parse(time.DateTime, str)`: layout "2006-01-02 15:04:05" — a 4-digit
year, 2-digit month and day, 1-or-2-digit hour, 2-digit minute and second,
with the literal separators, and nothing after the seconds. -/
def parseDateTime (str : String) : Option DateTime := do
  let (y, r) ← num4 str.toList
  let r ← lit1 '-' r
  let (mo, r) ← num2 r
  let r ← lit1 '-' r
  let (d, r) ← num2 r
  let r ← lit1 ' ' r
  let (h, r) ← num1or2 r
  let r ← lit1 ':' r
  let (mi, r) ← num2 r
  let r ← lit1 ':' r
  let (s, r) ← num2 r
  if r = [] then mkDateTime y mo d h mi s else none

/-! ## Project status (project.go) -/

structure ProjectStatus where
  Path : String
  IsDirty : Bool
  HasStash : Bool
  Upstreamed : Bool
  isDirtySnoozed : Bool
  hasStashSnoozed : Bool
  upstreamedSnoozed : Bool
  StatusString : String
deriving DecidableEq

def NewProject (path : String) (isDirty hasStash upstreamed : Bool) : ProjectStatus :=
  { Path := path
    IsDirty := isDirty
    HasStash := hasStash
    Upstreamed := upstreamed
    isDirtySnoozed := false
    hasStashSnoozed := false
    upstreamedSnoozed := false
    StatusString := ("") }

def ProjectStatus.Clean (p : ProjectStatus) : Bool := !(p.IsDirty || p.HasStash || !p.Upstreamed)

/-! ## Suppression engine (snooze.go) -/

structure Snooze where
  dirtyWorkdir : String
  stashes : String
  notUpstreamed : String
deriving DecidableEq

structure RepoEntry where
  path : String
  snooze : Snooze
deriving DecidableEq

structure IgnoreConfig where
  repos : List RepoEntry
deriving DecidableEq

/-- `isSnoozed`: parse the stored timestamp with the `time.DateTime` layout;
a parse failure yields `false`, otherwise the result is `time.Now().Before(t)`
(strictly before).  `now` is the evaluation time, passed explicitly. -/
def isSnoozed (now : DateTime) (snoozeTime : String) : Bool :=
  match parseDateTime snoozeTime with
  | none => false
  | some t => decide (now.key < t.key)

/-- One iteration of the loop body of `ApplySnooze` for a single config entry:
resolve the entry's path against the scan root, and if it denotes the scanned
repository, clear each failing finding whose snooze timestamp is active. -/
def applySnoozeEntry (now : DateTime) (cwd scanPath repoPath : String)
    (project : ProjectStatus) (repo : RepoEntry) : ProjectStatus :=
  let ignoreFileDir := if isAbsPath scanPath then scanPath else goAbs cwd scanPath
  let resolvedPath := goClean (goJoin ignoreFileDir repo.path)
  let absRepoPath := goClean (goAbs cwd repoPath)
  if resolvedPath = absRepoPath then
    let p1 :=
      if project.IsDirty ∧ repo.snooze.dirtyWorkdir ≠ ("") then
        if isSnoozed now repo.snooze.dirtyWorkdir then
          { project with IsDirty := false, isDirtySnoozed := true }
        else project
      else project
    let p2 :=
      if p1.HasStash ∧ repo.snooze.stashes ≠ ("") then
        if isSnoozed now repo.snooze.stashes then
          { p1 with HasStash := false, hasStashSnoozed := true }
        else p1
      else p1
    let p3 :=
      if (¬ p2.Upstreamed) ∧ repo.snooze.notUpstreamed ≠ ("") then
        if isSnoozed now repo.snooze.notUpstreamed then
          { p2 with Upstreamed := true, upstreamedSnoozed := true }
        else p2
      else p2
    p3
  else project

/-- `ApplySnooze(repoPath, project, config, scanPath)`: a nil config is a no-op;
otherwise every entry of the config is applied in encounter order.  `now` and
`cwd` are the evaluation time and working directory, passed explicitly. -/
def ApplySnooze (now : DateTime) (cwd repoPath : String) (project : ProjectStatus)
    (config : Option IgnoreConfig) (scanPath : String) : ProjectStatus :=
  match config with
  | none => project
  | some cfg => cfg.repos.foldl (applySnoozeEntry now cwd scanPath repoPath) project

/-! ## Characterization of the suppression engine -/

/-- The path against which a config entry is compared: the entry's path is
resolved relative to the (absolutized) scan root and cleaned. -/
def resolveEntryPath (cwd scanPath p : String) : String :=
  goClean (goJoin (if isAbsPath scanPath then scanPath else goAbs cwd scanPath) p)

/-- A config entry denotes the scanned repository. -/
def entryMatches (cwd scanPath repoPath : String) (e : RepoEntry) : Bool :=
  decide (resolveEntryPath cwd scanPath e.path = goClean (goAbs cwd repoPath))

/-- The entry suppresses the dirty-workdir finding: it matches the repository,
has a non-empty `dirty_workdir` timestamp, and that timestamp is active. -/
def dirtyActive (now : DateTime) (cwd scanPath repoPath : String) (e : RepoEntry) : Bool :=
  entryMatches cwd scanPath repoPath e && decide (e.snooze.dirtyWorkdir ≠ ("")) &&
    isSnoozed now e.snooze.dirtyWorkdir

def stashActive (now : DateTime) (cwd scanPath repoPath : String) (e : RepoEntry) : Bool :=
  entryMatches cwd scanPath repoPath e && decide (e.snooze.stashes ≠ ("")) &&
    isSnoozed now e.snooze.stashes

def upstreamActive (now : DateTime) (cwd scanPath repoPath : String) (e : RepoEntry) : Bool :=
  entryMatches cwd scanPath repoPath e && decide (e.snooze.notUpstreamed ≠ ("")) &&
    isSnoozed now e.snooze.notUpstreamed

theorem applySnoozeEntry_eq (now : DateTime) (cwd scanPath repoPath : String)
    (proj : ProjectStatus) (e : RepoEntry) :
    applySnoozeEntry now cwd scanPath repoPath proj e =
      { proj with
        IsDirty := proj.IsDirty && !dirtyActive now cwd scanPath repoPath e
        isDirtySnoozed := proj.isDirtySnoozed ||
          (proj.IsDirty && dirtyActive now cwd scanPath repoPath e)
        HasStash := proj.HasStash && !stashActive now cwd scanPath repoPath e
        hasStashSnoozed := proj.hasStashSnoozed ||
          (proj.HasStash && stashActive now cwd scanPath repoPath e)
        Upstreamed := proj.Upstreamed || upstreamActive now cwd scanPath repoPath e
        upstreamedSnoozed := proj.upstreamedSnoozed ||
          ((!proj.Upstreamed) && upstreamActive now cwd scanPath repoPath e) } := by
  unfold applySnoozeEntry dirtyActive stashActive upstreamActive entryMatches resolveEntryPath
  by_cases hm : goClean (goJoin (if isAbsPath scanPath then scanPath else goAbs cwd scanPath)
      e.path) = goClean (goAbs cwd repoPath)
  · simp only [hm, if_true, decide_True, Bool.true_and]
    cases proj with
    | mk P d st up ds ss us SS =>
      cases d <;> cases st <;> cases up <;>
        by_cases h1 : e.snooze.dirtyWorkdir = ("") <;>
        by_cases h2 : e.snooze.stashes = ("") <;>
        by_cases h3 : e.snooze.notUpstreamed = ("") <;>
        cases hs1 : isSnoozed now e.snooze.dirtyWorkdir <;>
        cases hs2 : isSnoozed now e.snooze.stashes <;>
        cases hs3 : isSnoozed now e.snooze.notUpstreamed <;>
        simp_all
  · simp only [hm, if_false, decide_False, Bool.false_and, Bool.and_false, Bool.or_false,
      Bool.not_false, Bool.and_true]

theorem applySnooze_foldl (now : DateTime) (cwd scanPath repoPath : String)
    (l : List RepoEntry) (proj : ProjectStatus) :
    l.foldl (applySnoozeEntry now cwd scanPath repoPath) proj =
      { proj with
        IsDirty := proj.IsDirty && !(l.any (dirtyActive now cwd scanPath repoPath))
        isDirtySnoozed := proj.isDirtySnoozed ||
          (proj.IsDirty && l.any (dirtyActive now cwd scanPath repoPath))
        HasStash := proj.HasStash && !(l.any (stashActive now cwd scanPath repoPath))
        hasStashSnoozed := proj.hasStashSnoozed ||
          (proj.HasStash && l.any (stashActive now cwd scanPath repoPath))
        Upstreamed := proj.Upstreamed || l.any (upstreamActive now cwd scanPath repoPath)
        upstreamedSnoozed := proj.upstreamedSnoozed ||
          ((!proj.Upstreamed) && l.any (upstreamActive now cwd scanPath repoPath)) } := by
  induction l generalizing proj with
  | nil => cases proj; simp
  | cons e rest ih =>
    rw [List.foldl_cons, applySnoozeEntry_eq, ih]
    cases proj with
    | mk P d st up ds ss us SS =>
      simp only [List.any_cons]
      cases d <;> cases st <;> cases up <;>
        cases h1 : dirtyActive now cwd scanPath repoPath e <;>
        cases h2 : stashActive now cwd scanPath repoPath e <;>
        cases h3 : upstreamActive now cwd scanPath repoPath e <;>
        simp_all

theorem ApplySnooze_some_eq (now : DateTime) (cwd repoPath : String) (proj : ProjectStatus)
    (cfg : IgnoreConfig) (scanPath : String) :
    ApplySnooze now cwd repoPath proj (some cfg) scanPath =
      { proj with
        IsDirty := proj.IsDirty && !(cfg.repos.any (dirtyActive now cwd scanPath repoPath))
        isDirtySnoozed := proj.isDirtySnoozed ||
          (proj.IsDirty && cfg.repos.any (dirtyActive now cwd scanPath repoPath))
        HasStash := proj.HasStash && !(cfg.repos.any (stashActive now cwd scanPath repoPath))
        hasStashSnoozed := proj.hasStashSnoozed ||
          (proj.HasStash && cfg.repos.any (stashActive now cwd scanPath repoPath))
        Upstreamed := proj.Upstreamed || cfg.repos.any (upstreamActive now cwd scanPath repoPath)
        upstreamedSnoozed := proj.upstreamedSnoozed ||
          ((!proj.Upstreamed) && cfg.repos.any (upstreamActive now cwd scanPath repoPath)) } :=
  applySnooze_foldl now cwd scanPath repoPath cfg.repos proj

/-! ## Validity of parsed timestamps and the chronological order -/

def DateTime.Valid (t : DateTime) : Prop :=
  1 ≤ t.month ∧ t.month ≤ 12 ∧ 1 ≤ t.day ∧ t.day ≤ 31 ∧
    t.hour ≤ 23 ∧ t.minute ≤ 59 ∧ t.second ≤ 59

instance (t : DateTime) : Decidable t.Valid := by
  unfold DateTime.Valid; infer_instance

theorem daysIn_le (month year : Nat) : daysIn month year ≤ 31 := by
  unfold daysIn
  split_ifs <;> omega

theorem mkDateTime_valid {y mo d h mi s : Nat} {t : DateTime}
    (hp : mkDateTime y mo d h mi s = some t) : t.Valid := by
  unfold mkDateTime at hp
  split at hp
  · cases hp
    rename_i hcond
    exact ⟨hcond.1, hcond.2.1, hcond.2.2.2.2.2.1,
      le_trans hcond.2.2.2.2.2.2 (daysIn_le mo y),
      hcond.2.2.1, hcond.2.2.2.1, hcond.2.2.2.2.1⟩
  · cases hp

theorem parseDateTime_valid {str : String} {t : DateTime}
    (hp : parseDateTime str = some t) : t.Valid := by
  unfold parseDateTime at hp
  simp only [bind, Option.bind_eq_some] at hp
  obtain ⟨⟨y, r1⟩, e1, hp⟩ := hp
  obtain ⟨r2, e2, hp⟩ := hp
  obtain ⟨⟨mo, r3⟩, e3, hp⟩ := hp
  obtain ⟨r4, e4, hp⟩ := hp
  obtain ⟨⟨d, r5⟩, e5, hp⟩ := hp
  obtain ⟨r6, e6, hp⟩ := hp
  obtain ⟨⟨h, r7⟩, e7, hp⟩ := hp
  obtain ⟨r8, e8, hp⟩ := hp
  obtain ⟨⟨mi, r9⟩, e9, hp⟩ := hp
  obtain ⟨r10, e10, hp⟩ := hp
  obtain ⟨⟨s, r11⟩, e11, hp⟩ := hp
  split at hp
  · exact mkDateTime_valid hp
  · cases hp

theorem key_lt_iff_After {a b : DateTime} (ha : a.Valid) (hb : b.Valid) :
    a.key < b.key ↔ b.After a := by
  obtain ⟨ay, amo, ad, ah, ami, as⟩ := a
  obtain ⟨by', bmo, bd, bh, bmi, bs⟩ := b
  unfold DateTime.Valid at ha hb
  unfold DateTime.key DateTime.After
  simp only at ha hb ⊢
  omega

theorem isSnoozed_eq_true_iff {now : DateTime} {s : String} :
    isSnoozed now s = true ↔ ∃ t, parseDateTime s = some t ∧ now.key < t.key := by
  unfold isSnoozed
  cases e : parseDateTime s <;> simp [e]

/-! ## Claims about the suppression engine -/

/-- Claim C2: for every project status, ignore configuration and evaluation
time, `ApplySnooze` never turns a passing finding into a failing one — it may
only change `IsDirty` and `HasStash` from `true` to `false` and `Upstreamed`
from `false` to `true`; any change requires a matching entry with a non-empty
timestamp that parses and lies strictly in the future; a finding already in
its good state is left unchanged (and a nil config is a no-op); and
`isSnoozed` holds exactly for timestamps strictly after the evaluation time. -/
theorem claim_C2_applySnooze_monotone (now : DateTime) (hv : now.Valid)
    (cwd repoPath : String) (proj : ProjectStatus) (cfg : IgnoreConfig) (scanPath : String) :
    (ApplySnooze now cwd repoPath proj none scanPath = proj)
    ∧ ((ApplySnooze now cwd repoPath proj (some cfg) scanPath).IsDirty = true →
        proj.IsDirty = true)
    ∧ (proj.IsDirty = false →
        (ApplySnooze now cwd repoPath proj (some cfg) scanPath).IsDirty = false)
    ∧ ((ApplySnooze now cwd repoPath proj (some cfg) scanPath).HasStash = true →
        proj.HasStash = true)
    ∧ (proj.HasStash = false →
        (ApplySnooze now cwd repoPath proj (some cfg) scanPath).HasStash = false)
    ∧ (proj.Upstreamed = true →
        (ApplySnooze now cwd repoPath proj (some cfg) scanPath).Upstreamed = true)
    ∧ ((ApplySnooze now cwd repoPath proj (some cfg) scanPath).IsDirty ≠ proj.IsDirty →
        ∃ e ∈ cfg.repos, entryMatches cwd scanPath repoPath e = true ∧
          e.snooze.dirtyWorkdir ≠ ("") ∧
          ∃ t, parseDateTime e.snooze.dirtyWorkdir = some t ∧ t.After now)
    ∧ ((ApplySnooze now cwd repoPath proj (some cfg) scanPath).HasStash ≠ proj.HasStash →
        ∃ e ∈ cfg.repos, entryMatches cwd scanPath repoPath e = true ∧
          e.snooze.stashes ≠ ("") ∧
          ∃ t, parseDateTime e.snooze.stashes = some t ∧ t.After now)
    ∧ ((ApplySnooze now cwd repoPath proj (some cfg) scanPath).Upstreamed ≠ proj.Upstreamed →
        ∃ e ∈ cfg.repos, entryMatches cwd scanPath repoPath e = true ∧
          e.snooze.notUpstreamed ≠ ("") ∧
          ∃ t, parseDateTime e.snooze.notUpstreamed = some t ∧ t.After now)
    ∧ (∀ s t, parseDateTime s = some t →
        (isSnoozed now s = true ↔ t.After now)) := by
  have hchar := ApplySnooze_some_eq now cwd repoPath proj cfg scanPath
  have hact : ∀ (f : RepoEntry → String),
      cfg.repos.any (fun e =>
        entryMatches cwd scanPath repoPath e && decide (f e ≠ ("")) && isSnoozed now (f e)) = true →
      ∃ e ∈ cfg.repos, entryMatches cwd scanPath repoPath e = true ∧ f e ≠ ("") ∧
        ∃ t, parseDateTime (f e) = some t ∧ t.After now := by
    intro f hany
    rw [List.any_eq_true] at hany
    obtain ⟨e, he, hcond⟩ := hany
    simp only [Bool.and_eq_true, decide_eq_true_eq] at hcond
    obtain ⟨⟨hm, hne⟩, hsn⟩ := hcond
    obtain ⟨t, hpt, hlt⟩ := isSnoozed_eq_true_iff.mp hsn
    exact ⟨e, he, hm, hne, t, hpt, (key_lt_iff_After hv (parseDateTime_valid hpt)).mp hlt⟩
  refine ⟨rfl, ?_, ?_, ?_, ?_, ?_, ?_, ?_, ?_, ?_⟩
  · rw [hchar]; cases proj.IsDirty <;> simp
  · rw [hchar]; intro h; simp [h]
  · rw [hchar]; cases proj.HasStash <;> simp
  · rw [hchar]; intro h; simp [h]
  · rw [hchar]; intro h; simp [h]
  · rw [hchar]
    intro hne
    have : cfg.repos.any (dirtyActive now cwd scanPath repoPath) = true := by
      by_contra hno
      simp only [Bool.not_eq_true] at hno
      simp [hno] at hne
    exact hact (fun e => e.snooze.dirtyWorkdir) this
  · rw [hchar]
    intro hne
    have : cfg.repos.any (stashActive now cwd scanPath repoPath) = true := by
      by_contra hno
      simp only [Bool.not_eq_true] at hno
      simp [hno] at hne
    exact hact (fun e => e.snooze.stashes) this
  · rw [hchar]
    intro hne
    have : cfg.repos.any (upstreamActive now cwd scanPath repoPath) = true := by
      by_contra hno
      simp only [Bool.not_eq_true] at hno
      simp [hno] at hne
    exact hact (fun e => e.snooze.notUpstreamed) this
  · intro s t hpt
    rw [isSnoozed_eq_true_iff]
    constructor
    · rintro ⟨t', hpt', hlt⟩
      rw [hpt] at hpt'
      cases hpt'
      exact (key_lt_iff_After hv (parseDateTime_valid hpt)).mp hlt
    · intro hA
      exact ⟨t, hpt, (key_lt_iff_After hv (parseDateTime_valid hpt)).mpr hA⟩

def nowW : DateTime := ⟨2024, 1, 1, 0, 0, 0⟩

def cfgW : IgnoreConfig := ⟨[]⟩

def projW : ProjectStatus := NewProject ("/s/r") true false true

/-- Witness for claim C2 at a concrete evaluation time and timestamp. -/
theorem claim_C2_witness :
    isSnoozed nowW ("2030-06-15 12:30:00") = true :=
  ((claim_C2_applySnooze_monotone nowW (by decide) ("/c") ("/s/r") projW cfgW
      ("/s")).2.2.2.2.2.2.2.2.2 ("2030-06-15 12:30:00") ⟨2030, 6, 15, 12, 30, 0⟩
      (by decide)).mpr (by decide)

/-- A config entry that actively snoozes the dirty-workdir finding of the
repository at `/s/r` (relative path `r` under scan root `/s`). -/
def entryActiveW : RepoEntry := ⟨("r"), ⟨("2030-01-01 00:00:00"), (""), ("")⟩⟩

/-- A second entry for the same repository with no suppression at all. -/
def entryInertW : RepoEntry := ⟨("r"), ⟨(""), (""), ("")⟩⟩

def projDirtyW : ProjectStatus := NewProject ("/s/r") true false true

/-- Counterexample to claim C7 as stated: both entries resolve to the scanned
repository and the inert entry is the later matching one, yet the outcome for
the dirty-workdir kind is determined by the earlier active entry — applying
the full two-entry config clears `IsDirty` while applying only the last
matching entry leaves it set, so the later matching entry does not determine
the outcome. -/
theorem claim_C7_counterexample :
    entryMatches ("/c") ("/s") ("/s/r") entryActiveW = true
    ∧ entryMatches ("/c") ("/s") ("/s/r") entryInertW = true
    ∧ (ApplySnooze nowW ("/c") ("/s/r") projDirtyW
        (some ⟨[entryActiveW, entryInertW]⟩) ("/s")).IsDirty = false
    ∧ (ApplySnooze nowW ("/c") ("/s/r") projDirtyW
        (some ⟨[entryInertW]⟩) ("/s")).IsDirty = true := by
  exact ⟨by decide, by decide, by decide, by decide⟩

/-- Claim C7 (amended): `ApplySnooze` is a total function applying the entries
in encounter order (a left fold of the per-entry step), and for each finding
kind the outcome is cumulative rather than last-entry-wins: a failing finding
is cleared iff SOME matching entry has a non-empty, currently active timestamp
for that kind, so a later matching entry can never undo an earlier entry's
suppression. -/
theorem claim_C7_amended (now : DateTime) (cwd repoPath : String) (proj : ProjectStatus)
    (cfg : IgnoreConfig) (scanPath : String) :
    (ApplySnooze now cwd repoPath proj (some cfg) scanPath =
      cfg.repos.foldl (applySnoozeEntry now cwd scanPath repoPath) proj)
    ∧ ((ApplySnooze now cwd repoPath proj (some cfg) scanPath).IsDirty =
        (proj.IsDirty && !(cfg.repos.any (dirtyActive now cwd scanPath repoPath))))
    ∧ ((ApplySnooze now cwd repoPath proj (some cfg) scanPath).isDirtySnoozed =
        (proj.isDirtySnoozed || (proj.IsDirty && cfg.repos.any (dirtyActive now cwd scanPath repoPath))))
    ∧ ((ApplySnooze now cwd repoPath proj (some cfg) scanPath).HasStash =
        (proj.HasStash && !(cfg.repos.any (stashActive now cwd scanPath repoPath))))
    ∧ ((ApplySnooze now cwd repoPath proj (some cfg) scanPath).hasStashSnoozed =
        (proj.hasStashSnoozed || (proj.HasStash && cfg.repos.any (stashActive now cwd scanPath repoPath))))
    ∧ ((ApplySnooze now cwd repoPath proj (some cfg) scanPath).Upstreamed =
        (proj.Upstreamed || cfg.repos.any (upstreamActive now cwd scanPath repoPath)))
    ∧ ((ApplySnooze now cwd repoPath proj (some cfg) scanPath).upstreamedSnoozed =
        (proj.upstreamedSnoozed ||
          ((!proj.Upstreamed) && cfg.repos.any (upstreamActive now cwd scanPath repoPath)))) := by
  have hchar := ApplySnooze_some_eq now cwd repoPath proj cfg scanPath
  exact ⟨rfl, by rw [hchar], by rw [hchar], by rw [hchar], by rw [hchar], by rw [hchar],
    by rw [hchar]⟩

/-- Claim C10: starting from a freshly constructed project (`NewProject`, all
snoozed flags `false`), after `ApplySnooze` each snoozed flag equals "the raw
finding was bad and the engine cleared it": `isDirtySnoozed` is set exactly
when the project was dirty and is no longer, `hasStashSnoozed` exactly when it
had a stash and no longer does, and `upstreamedSnoozed` exactly when it was
not upstreamed and now is — so each snoozed flag implies its finding is in the
good state. -/
theorem claim_C10_snoozed_flags (now : DateTime) (cwd repoPath path : String)
    (isDirty hasStash upstreamed : Bool) (config : Option IgnoreConfig) (scanPath : String) :
    ((ApplySnooze now cwd repoPath (NewProject path isDirty hasStash upstreamed)
        config scanPath).isDirtySnoozed =
      (isDirty && !(ApplySnooze now cwd repoPath (NewProject path isDirty hasStash upstreamed)
        config scanPath).IsDirty))
    ∧ ((ApplySnooze now cwd repoPath (NewProject path isDirty hasStash upstreamed)
        config scanPath).hasStashSnoozed =
      (hasStash && !(ApplySnooze now cwd repoPath (NewProject path isDirty hasStash upstreamed)
        config scanPath).HasStash))
    ∧ ((ApplySnooze now cwd repoPath (NewProject path isDirty hasStash upstreamed)
        config scanPath).upstreamedSnoozed =
      ((!upstreamed) && (ApplySnooze now cwd repoPath (NewProject path isDirty hasStash
        upstreamed) config scanPath).Upstreamed)) := by
  cases config with
  | none =>
    refine ⟨?_, ?_, ?_⟩ <;> simp [ApplySnooze, NewProject]
  | some cfg =>
    have hchar := ApplySnooze_some_eq now cwd repoPath
      (NewProject path isDirty hasStash upstreamed) cfg scanPath
    rw [hchar]
    refine ⟨?_, ?_, ?_⟩ <;>
      cases isDirty <;> cases hasStash <;> cases upstreamed <;>
        cases h1 : cfg.repos.any (dirtyActive now cwd scanPath repoPath) <;>
        cases h2 : cfg.repos.any (stashActive now cwd scanPath repoPath) <;>
        cases h3 : cfg.repos.any (upstreamActive now cwd scanPath repoPath) <;>
        simp_all [NewProject]

/-! ## Duration parsing (snooze.go `parseSnoozeDuration`)

`goParseDuration` embeds Go's `time.ParseDuration` (grammar
`[-+]?([0-9]*(\.[0-9]*)?[a-z]+)+` with units ns/us/µs/ms/s/m/h, 64-bit
overflow checks, result in nanoseconds).  The one deviation from Go: the
fractional part is accumulated with exact rational floor division where Go
uses `float64` — identical on all inputs whose fraction value is exactly
representable, and irrelevant to integral inputs. -/

def isSpaceGo (c : Char) : Bool :=
  [9, 10, 11, 12, 13, 32, 133, 160, 5760, 8192, 8193, 8194, 8195, 8196, 8197, 8198,
    8199, 8200, 8201, 8202, 8232, 8233, 8239, 8287, 12288].contains c.toNat

def goTrimSpace (s : String) : String :=
  String.mk (((s.toList.dropWhile isSpaceGo).reverse.dropWhile isSpaceGo).reverse)

/-- ASCII lowering; full Unicode case folding is irrelevant to the duration
grammar (its units are already lowercase or non-cased). -/
def lowerChar (c : Char) : Char :=
  if 65 ≤ c.toNat ∧ c.toNat ≤ 90 then Char.ofNat (c.toNat + 32) else c

def goToLower (s : String) : String := String.mk (s.toList.map lowerChar)

/-- Go's `leadingInt`: consume leading digits into a `uint64`, erroring out
(`none`) past `1<<63`. -/
def leadingIntAux (x : Nat) : List Char → Option (Nat × List Char)
  | [] => some (x, [])
  | c :: rest =>
    if c.isDigit then
      if x > 922337203685477580 then none
      else
        let x1 := x * 10 + (c.toNat - 48)
        if x1 > 9223372036854775808 then none
        else leadingIntAux x1 rest
    else some (x, c :: rest)

/-- Go's `leadingFraction`: consume digits after the decimal point, saturating
(without error) once the value would overflow; `scale` is the power of ten of
consumed (non-overflowed) digits. -/
def leadingFractionAux (x scale : Nat) (overflow : Bool) :
    List Char → (Nat × Nat × List Char)
  | [] => (x, scale, [])
  | c :: rest =>
    if c.isDigit then
      if overflow then leadingFractionAux x scale true rest
      else if x > 922337203685477580 then leadingFractionAux x scale true rest
      else
        let y := x * 10 + (c.toNat - 48)
        if y > 9223372036854775808 then leadingFractionAux x scale true rest
        else leadingFractionAux y (scale * 10) false rest
    else (x, scale, c :: rest)

/-- The span of unit characters: everything up to the next digit or dot. -/
def takeUnit : List Char → (List Char × List Char)
  | [] => ([], [])
  | c :: rest =>
    if decide (c = '.') || c.isDigit then ([], c :: rest)
    else
      let (u, r) := takeUnit rest
      (c :: u, r)

/-- Go's `unitMap` (nanoseconds per unit). -/
def parseDurUnits : List (String × Nat) :=
  [(("ns"), 1), (("us"), 1000), (("µs"), 1000), (("μs"), 1000), (("ms"), 1000000),
    (("s"), 1000000000), (("m"), 60000000000), (("h"), 3600000000000)]

/-- The component loop of `time.ParseDuration`.  Each iteration consumes at
least one character, so fuel `length + 1` never runs out. -/
def goParseDurationLoop : Nat → Nat → List Char → Option Nat
  | 0, _, _ => none
  | _ + 1, d, [] => some d
  | fuel + 1, d, c :: cs =>
    if !(decide (c = '.') || c.isDigit) then none
    else
      match leadingIntAux 0 (c :: cs) with
      | none => none
      | some (v, s1) =>
        let pre := decide (s1.length ≠ (c :: cs).length)
        let frac :=
          match s1 with
          | '.' :: s1' =>
            let (f, sc, s2) := leadingFractionAux 0 1 false s1'
            (f, sc, s2, decide (s2.length ≠ s1'.length))
          | _ => (0, 1, s1, false)
        match frac with
        | (f, scale, s2, post) =>
          if !pre && !post then none
          else
            match takeUnit s2 with
            | ([], _) => none
            | (u, s3) =>
              match parseDurUnits.lookup (String.mk u) with
              | none => none
              | some unit =>
                if v > 9223372036854775808 / unit then none
                else
                  let v2 := v * unit
                  let v3 := if f > 0 then v2 + (f * unit) / scale else v2
                  if f > 0 ∧ v3 > 9223372036854775808 then none
                  else
                    let d2 := d + v3
                    if d2 > 9223372036854775808 then none
                    else goParseDurationLoop fuel d2 s3

/-- `time.ParseDuration`, returning the signed duration in nanoseconds
(`none` = parse error). -/
def goParseDuration (s : String) : Option Int :=
  let cs0 := s.toList
  let sign :=
    match cs0 with
    | c :: rest => if decide (c = '-') || decide (c = '+') then (decide (c = '-'), rest)
      else (false, cs0)
    | [] => (false, cs0)
  match sign with
  | (neg, cs) =>
    if cs = [('0')] then some 0
    else if cs = [] then none
    else
      match goParseDurationLoop (cs.length + 1) 0 cs with
      | none => none
      | some d =>
        if neg then some (-(Int.ofNat d))
        else if d > 9223372036854775807 then none
        else some (Int.ofNat d)

/-- Two's-complement wraparound of a 64-bit signed multiplication result. -/
def wrap64 (n : Int) : Int :=
  (n + 9223372036854775808) % 18446744073709551616 - 9223372036854775808

def digitsToNat (ds : List Char) : Nat := ds.foldl (fun acc c => acc * 10 + (c.toNat - 48)) 0

/-- The custom fallback regexp of `parseSnoozeDuration`:
`^(\d+)([dwmy])$` — one or more ASCII digits followed by exactly one of
`d`/`w`/`m`/`y`, anchored on both sides.  Returns the digit value and the
unit. -/
def matchCustom (s : String) : Option (Nat × Char) :=
  match s.toList.reverse with
  | [] => none
  | u :: revds =>
    if (u = 'd' ∨ u = 'w' ∨ u = 'm' ∨ u = 'y') ∧ revds ≠ [] ∧
        revds.all (fun c => c.isDigit) then
      some (digitsToNat revds.reverse, u)
    else none

/-- `parseSnoozeDuration`: trim and lowercase, try `time.ParseDuration`, then
the custom `(\d+)[dwmy]` format with day = 24h, week = 7d, month = 30d,
year = 365d.  `strconv.Atoi` rejects values beyond `2^63 - 1`; the final
multiplication is a wrapping 64-bit multiplication as in Go. -/
def parseSnoozeDuration (durationStr : String) : Except String Int :=
  let ds := goToLower (goTrimSpace durationStr)
  match goParseDuration ds with
  | some d => .ok d
  | none =>
    match matchCustom ds with
    | none =>
      .error (("invalid duration format: ") ++ ds ++
        (". Use formats like 1h, 2d, 3w, 4m, 5y"))
    | some (value, u) =>
      if value > 9223372036854775807 then
        .error (("strconv.Atoi: parsing: value out of range"))
      else
        if u = 'd' then .ok (wrap64 (86400000000000 * (Int.ofNat value)))
        else if u = 'w' then .ok (wrap64 (604800000000000 * (Int.ofNat value)))
        else if u = 'm' then .ok (wrap64 (2592000000000000 * (Int.ofNat value)))
        else .ok (wrap64 (31536000000000000 * (Int.ofNat value)))

def goHour : Int := 3600000000000

/-- Claim C9: `parseSnoozeDuration` maps `"2d"` to exactly 48 hours, `"3w"` to
exactly 504 hours and `"1y"` to exactly 8760 hours, and every input (such as
`"bogus"`) that, after trimming and lowercasing, neither parses as a standard
short-unit Go duration nor matches the integer-plus-`d`/`w`/`m`/`y` format is
answered with a validation error rather than a crash. -/
theorem claim_C9_parseSnoozeDuration :
    parseSnoozeDuration ("2d") = .ok (48 * goHour)
    ∧ parseSnoozeDuration ("3w") = .ok (504 * goHour)
    ∧ parseSnoozeDuration ("1y") = .ok (8760 * goHour)
    ∧ (∃ msg, parseSnoozeDuration ("bogus") = .error msg)
    ∧ (∀ s, goParseDuration (goToLower (goTrimSpace s)) = none →
        matchCustom (goToLower (goTrimSpace s)) = none →
        ∃ msg, parseSnoozeDuration s = .error msg) := by
  refine ⟨rfl, rfl, rfl, ⟨_, rfl⟩, ?_⟩
  intro s h1 h2
  unfold parseSnoozeDuration
  simp only [h1, h2]
  exact ⟨_, rfl⟩

/-- Witness for claim C9's universally quantified error clause at the concrete
input `"xyz"`. -/
theorem claim_C9_witness : ∃ msg, parseSnoozeDuration ("xyz") = .error msg :=
  claim_C9_parseSnoozeDuration.2.2.2.2 ("xyz") rfl rfl

/-! ## Git repository model (go-git as the external backend)

A repository is its resolved references (full reference name to commit hash,
in enumeration order), its commit store (hash to parent hashes), and the
result of `Head()` (the full name of the checked-out reference, `"HEAD"` when
detached, `none` when `Head()` itself fails).

Modelled from the spec: the go-git backend (reference resolution, commit
lookup, `Commit.IsAncestor`) is an external collaborator of this repository;
its ancestry semantics follows the spec's definition — every commit reachable
from the local commit is also reachable by walking backward from the remote
commit. -/

structure RefEntry where
  name : String
  hash : Nat
deriving DecidableEq

structure Repo where
  head : Option String
  refs : List RefEntry
  commits : List (Nat × List Nat)
deriving DecidableEq

/-- `plumbing.Error` values the program distinguishes: the
`ErrReferenceNotFound` sentinel, `ErrObjectNotFound`, and errors wrapped with
a message via `fmt.Errorf` (Go `==` comparison distinguishes a wrapped error
from the bare sentinel). -/
inductive GitError where
  | referenceNotFound : GitError
  | objectNotFound : GitError
  | wrapped : String → GitError → GitError
deriving DecidableEq

/-- `repo.Reference(name, true)`: resolved lookup of a reference by full
name. -/
def refLookup (repo : Repo) (name : String) : Option Nat :=
  (repo.refs.find? (fun r => r.name = name)).map (fun r => r.hash)

def parentsOf (cs : List (Nat × List Nat)) (h : Nat) : List Nat := (cs.lookup h).getD []

/-- One breadth step of ancestry walking: the set (as a list) grows by all
parents of already-reached commits. -/
def reachAux (cs : List (Nat × List Nat)) : Nat → List Nat → List Nat
  | 0, acc => acc
  | n + 1, acc =>
    let fresh := ((acc.flatMap (parentsOf cs)).filter (fun x => !acc.contains x)).dedup
    if fresh.isEmpty then acc else reachAux cs n (acc ++ fresh)

/-- All commits reachable from `h` by walking parents (including `h`
itself); `cs.length` breadth steps always suffice to saturate. -/
def reachable (cs : List (Nat × List Nat)) (h : Nat) : List Nat :=
  reachAux cs cs.length [h]

/-- `lObject.IsAncestor(rObject)` — the spec's ancestry semantics: the local
commit's history is contained in the remote commit's history. -/
def isAncestorB (cs : List (Nat × List Nat)) (a b : Nat) : Bool :=
  (reachable cs a).all (fun c => (reachable cs b).contains c)

/-- `isBranchUpstreamed(repo, localBranchName, remoteBranchName)`: resolve the
local branch (failure is wrapped), fetch its commit (failure returned bare),
resolve `origin/<remoteBranchName>` (failure returned bare — the
`ErrReferenceNotFound` sentinel), fetch its commit (failure wrapped), then ask
the ancestry question. -/
def isBranchUpstreamed (repo : Repo) (localBranchName remoteBranchName : String) :
    Except GitError Bool :=
  match refLookup repo (("refs/heads/") ++ localBranchName) with
  | none => .error (.wrapped ("could not get local branch") .referenceNotFound)
  | some lh =>
    if (repo.commits.lookup lh).isNone then .error .objectNotFound
    else
      match refLookup repo (("refs/remotes/origin/") ++ remoteBranchName) with
      | none => .error .referenceNotFound
      | some rh =>
        if (repo.commits.lookup rh).isNone then
          .error (.wrapped ("cannot get remoteRef by hash") .objectNotFound)
        else .ok (isAncestorB repo.commits lh rh)

/-- `ReferenceName.IsRemote()`. -/
def isRemoteRef (name : String) : Bool := strHasPrefix ("refs/remotes/") name

def strDropLen (n : Nat) (s : String) : String := String.mk (s.toList.drop n)

/-- `ReferenceName.Short()`: strip the most specific matching of the
rev-parse prefixes (go-git applies the `RefRevParseRules` in order with the
last successful scan winning, which amounts to stripping the longest matching
prefix; the `refs/remotes/%s/HEAD` rule can never fire because `%s` scanning
is greedy). -/
def refShort (name : String) : String :=
  if strHasPrefix ("refs/remotes/") name then strDropLen 13 name
  else if strHasPrefix ("refs/heads/") name then strDropLen 11 name
  else if strHasPrefix ("refs/tags/") name then strDropLen 10 name
  else if strHasPrefix ("refs/") name then strDropLen 5 name
  else name

/-- `getLikelyUpstreamMainishBranch`: iterate over all references; every
remote-tracking reference whose short name is `origin/master` sets the
candidate to `master` and `origin/main` sets it to `main` (the last matching
reference in enumeration order wins); an empty candidate at the end is the
no-mainish-branch error. -/
def mainishStep (acc : String) (r : RefEntry) : String :=
  if isRemoteRef r.name then
    let acc1 := if refShort r.name = ("origin/master") then ("master") else acc
    if refShort r.name = ("origin/main") then ("main") else acc1
  else acc

def getLikelyUpstreamMainishBranch (repo : Repo) : Except String String :=
  let mainish := repo.refs.foldl mainishStep ("")
  if mainish = ("") then .error ("neither main nor master branch exists") else .ok mainish

def okOrFalse (r : Except GitError Bool) : Bool :=
  match r with
  | .ok v => v
  | .error _ => false

/-- `isUpstreamed(repo, repoPath)`: a `Head()` failure or a detached checkout
(short name `"HEAD"`) is `false`; otherwise the branch is compared against its
same-named origin counterpart (errors print a diagnostic and leave the verdict
`false`), then against the located mainish branch, where a locator failure or
any resolver error yields `false`. -/
def isUpstreamed (repo : Repo) : Bool :=
  match repo.head with
  | none => false
  | some headName =>
    if refShort headName = ("HEAD") then false
    else
      let b := refShort headName
      if okOrFalse (isBranchUpstreamed repo b b) then true
      else
        match getLikelyUpstreamMainishBranch repo with
        | .error _ => false
        | .ok mainish => okOrFalse (isBranchUpstreamed repo b mainish)

/-! ## Claims about the mainish-branch locator and the upstream resolver -/

/-- A repository whose remote-tracking references list `origin/main` before
`origin/master`. -/
def repoC1 : Repo :=
  ⟨none, [⟨("refs/remotes/origin/main"), 1⟩, ⟨("refs/remotes/origin/master"), 2⟩], []⟩

/-- Counterexample to claim C1 as stated: this repository has remote-tracking
references for both `origin/main` and `origin/master`, yet, because
`origin/main` is enumerated first and the locator is last-seen-wins, the
result is `master`, not `main`. -/
theorem claim_C1_counterexample :
    (repoC1.refs.any (fun r =>
      isRemoteRef r.name && decide (refShort r.name = ("origin/main")))) = true
    ∧ (repoC1.refs.any (fun r =>
      isRemoteRef r.name && decide (refShort r.name = ("origin/master")))) = true
    ∧ getLikelyUpstreamMainishBranch repoC1 = .ok ("master") :=
  ⟨rfl, rfl, rfl⟩

/-- Modelled from the spec's amendment: what a single reference contributes to
the mainish candidate. -/
def mainishOf (short : String) : Option String :=
  if short = ("origin/main") then some ("main")
  else if short = ("origin/master") then some ("master") else none

def lastSeenStep (acc : Option String) (r : RefEntry) : Option String :=
  if isRemoteRef r.name then
    match mainishOf (refShort r.name) with
    | some m => some m
    | none => acc
  else acc

/-- The last matching remote-tracking reference in enumeration order, if
any. -/
def lastSeenMainish (repo : Repo) : Option String := repo.refs.foldl lastSeenStep none

theorem mainishFoldRel (l : List RefEntry) (s : String) (o : Option String)
    (h : (s = ("") ∧ o = none) ∨ (o = some s ∧ s ≠ (""))) :
    (l.foldl mainishStep s = ("") ∧ l.foldl lastSeenStep o = none) ∨
      (l.foldl lastSeenStep o = some (l.foldl mainishStep s) ∧
        l.foldl mainishStep s ≠ ("")) := by
  induction l generalizing s o with
  | nil => simpa using h
  | cons r rest ih =>
    rw [List.foldl_cons, List.foldl_cons]
    apply ih
    unfold mainishStep lastSeenStep mainishOf
    by_cases hrem : isRemoteRef r.name
    · simp only [hrem, if_true]
      by_cases h1 : refShort r.name = ("origin/main")
      · simp [h1]
      · by_cases h2 : refShort r.name = ("origin/master")
        · simp [h1, h2]
        · simp only [h1, h2, if_false]
          exact h
    · simp only [hrem, if_false]
      exact h

/-- Claim C1 (amended): the locator fails with the no-mainish-branch error iff
neither `origin/main` nor `origin/master` exists among the remote-tracking
references; otherwise it returns the branch named by the LAST matching
reference in enumeration order — so `main` is preferred over `master` only
when an `origin/main` reference is enumerated after the last `origin/master`
reference, not unconditionally. -/
theorem claim_C1_amended (repo : Repo) :
    getLikelyUpstreamMainishBranch repo =
      (match lastSeenMainish repo with
       | some m => Except.ok m
       | none => Except.error ("neither main nor master branch exists")) := by
  unfold getLikelyUpstreamMainishBranch lastSeenMainish
  rcases mainishFoldRel repo.refs ("") none (Or.inl ⟨rfl, rfl⟩) with ⟨h1, h2⟩ | ⟨h2, h1⟩
  · simp [h1, h2]
  · simp [h2, h1]

/-- Claim C4: when the local branch and its origin counterpart both resolve to
stored commits, `isBranchUpstreamed` answers exactly the history-containment
question — `ok true` iff every commit reachable from the local commit is also
reachable from the remote commit — and is therefore reflexive: equal commits
give `(true, nil)`. -/
theorem claim_C4_isBranchUpstreamed_ancestry (repo : Repo) (b r : String) (lh rh : Nat)
    (hl : refLookup repo (("refs/heads/") ++ b) = some lh)
    (hlc : (repo.commits.lookup lh).isSome = true)
    (hr : refLookup repo (("refs/remotes/origin/") ++ r) = some rh)
    (hrc : (repo.commits.lookup rh).isSome = true) :
    (isBranchUpstreamed repo b r = .ok true ↔
      ∀ c ∈ reachable repo.commits lh, c ∈ reachable repo.commits rh)
    ∧ (lh = rh → isBranchUpstreamed repo b r = .ok true) := by
  have hval : isBranchUpstreamed repo b r = .ok (isAncestorB repo.commits lh rh) := by
    unfold isBranchUpstreamed
    rw [hl, hr]
    rcases Option.isSome_iff_exists.mp hlc with ⟨lv, hlv⟩
    rcases Option.isSome_iff_exists.mp hrc with ⟨rv, hrv⟩
    simp [hlv, hrv]
  constructor
  · rw [hval]
    constructor
    · intro h
      have hb : isAncestorB repo.commits lh rh = true := by
        cases hAB : isAncestorB repo.commits lh rh
        · rw [hAB] at h; cases h
        · rfl
      intro c hc
      have := (List.all_eq_true.mp hb) c hc
      exact List.elem_iff.mp this
    · intro h
      have hb : isAncestorB repo.commits lh rh = true := by
        apply List.all_eq_true.mpr
        intro c hc
        exact List.elem_iff.mpr (h c hc)
      rw [hb]
  · intro heq
    rw [hval, heq]
    have hb : isAncestorB repo.commits rh rh = true := by
      apply List.all_eq_true.mpr
      intro c hc
      exact List.elem_iff.mpr hc
    rw [hb]

/-- A repository whose branch `feat` and remote `origin/feat` point at the
same commit. -/
def repoC4 : Repo :=
  ⟨some ("refs/heads/feat"),
    [⟨("refs/heads/feat"), 5⟩, ⟨("refs/remotes/origin/feat"), 5⟩], [(5, [])]⟩

/-- Witness for claim C4: reflexivity at a concrete one-commit repository. -/
theorem claim_C4_witness : isBranchUpstreamed repoC4 ("feat") ("feat") = .ok true :=
  (claim_C4_isBranchUpstreamed_ancestry repoC4 ("feat") ("feat") 5 5 rfl rfl rfl rfl).2 rfl

/-- Claim C5: when the checked-out branch resolves locally (reference and
commit both present) but `origin/<branch>` does not exist,
`isBranchUpstreamed` returns `(false, ErrReferenceNotFound)`; and the bare
`ErrReferenceNotFound` sentinel is produced in exactly that situation, so a
caller comparing errors can tell it apart from every other failure of the
call (which are either wrapped or the object-not-found error). -/
theorem claim_C5_remoteRefNotFound :
    (∀ (repo : Repo) (b r : String) (lh : Nat),
      refLookup repo (("refs/heads/") ++ b) = some lh →
      (repo.commits.lookup lh).isSome = true →
      refLookup repo (("refs/remotes/origin/") ++ r) = none →
      isBranchUpstreamed repo b r = .error .referenceNotFound)
    ∧ (∀ (repo : Repo) (b r : String) (e : GitError),
      isBranchUpstreamed repo b r = .error e →
      (e = .referenceNotFound ↔
        ∃ lh, refLookup repo (("refs/heads/") ++ b) = some lh ∧
          (repo.commits.lookup lh).isSome = true ∧
          refLookup repo (("refs/remotes/origin/") ++ r) = none)) := by
  constructor
  · intro repo b r lh hl hlc hr
    unfold isBranchUpstreamed
    rcases Option.isSome_iff_exists.mp hlc with ⟨lv, hlv⟩
    rw [hl]
    simp [hlv, hr]
  · intro repo b r e h
    unfold isBranchUpstreamed at h
    split at h
    · -- local branch reference missing: the error is wrapped, not the sentinel
      rename_i hL
      cases h
      constructor
      · intro hfalse; cases hfalse
      · rintro ⟨lh, hlh, _, _⟩
        rw [hL] at hlh
        cases hlh
    · rename_i lh hL
      split at h
      · -- local commit object missing: bare objectNotFound, not the sentinel
        rename_i hC
        cases h
        constructor
        · intro hfalse; cases hfalse
        · rintro ⟨lh', hlh', hs, _⟩
          rw [hL] at hlh'
          cases hlh'
          rw [Option.isNone_iff_eq_none.mp hC] at hs
          cases hs
      · rename_i hC
        split at h
        · -- remote reference missing: exactly the sentinel
          rename_i hR
          cases h
          simp only [true_iff]
          refine ⟨lh, hL, ?_, hR⟩
          cases hCv : repo.commits.lookup lh with
          | none => rw [hCv] at hC; exact absurd rfl hC
          | some v => rfl
        · rename_i rh hR
          split at h
          · -- remote commit object missing: wrapped error, not the sentinel
            cases h
            constructor
            · intro hfalse; cases hfalse
            · rintro ⟨lh', hlh', _, hrn⟩
              rw [hR] at hrn
              cases hrn
          · -- success path returns ok, not an error
            cases h

/-- A repository with a local branch `dev` (commit present) and no remote
references at all. -/
def repoC5 : Repo := ⟨some ("refs/heads/dev"), [⟨("refs/heads/dev"), 3⟩], [(3, [])]⟩

/-- Witness for claim C5 at a concrete repository without an origin
counterpart. -/
theorem claim_C5_witness : isBranchUpstreamed repoC5 ("dev") ("dev") = .error .referenceNotFound :=
  claim_C5_remoteRefNotFound.1 repoC5 ("dev") ("dev") 3 rfl rfl rfl

/-- Claim C6: the evaluator's `upstreamed` verdict is computed in order with
short-circuiting — a `Head()` failure or a detached checkout (short name
`"HEAD"`) is `false` without consulting the resolver; otherwise a `true`
answer for the branch against its same-named origin counterpart settles the
verdict as `true`; on any non-`true` first answer the mainish branch is
located, a locator failure gives `false`, and otherwise the verdict is `true`
exactly when the resolver answers `ok true` for the branch against the
mainish branch (every resolver error, the sentinel included, giving
`false`). -/
theorem claim_C6_isUpstreamed_order (repo : Repo) :
    (repo.head = none → isUpstreamed repo = false)
    ∧ (∀ n, repo.head = some n → refShort n = ("HEAD") → isUpstreamed repo = false)
    ∧ (∀ n, repo.head = some n → refShort n ≠ ("HEAD") →
        isBranchUpstreamed repo (refShort n) (refShort n) = .ok true →
        isUpstreamed repo = true)
    ∧ (∀ n msg, repo.head = some n → refShort n ≠ ("HEAD") →
        okOrFalse (isBranchUpstreamed repo (refShort n) (refShort n)) = false →
        getLikelyUpstreamMainishBranch repo = .error msg →
        isUpstreamed repo = false)
    ∧ (∀ n m, repo.head = some n → refShort n ≠ ("HEAD") →
        okOrFalse (isBranchUpstreamed repo (refShort n) (refShort n)) = false →
        getLikelyUpstreamMainishBranch repo = .ok m →
        isUpstreamed repo = okOrFalse (isBranchUpstreamed repo (refShort n) m)) := by
  refine ⟨?_, ?_, ?_, ?_, ?_⟩
  · intro h
    unfold isUpstreamed
    rw [h]
  · intro n hn hshort
    unfold isUpstreamed
    rw [hn]
    simp [hshort]
  · intro n hn hshort hfirst
    unfold isUpstreamed
    rw [hn]
    simp only [if_neg hshort]
    rw [hfirst]
    simp [okOrFalse]
  · intro n msg hn hshort hfirst hloc
    unfold isUpstreamed
    rw [hn]
    simp only [if_neg hshort]
    rw [hfirst, hloc]
    simp
  · intro n m hn hshort hfirst hloc
    unfold isUpstreamed
    rw [hn]
    simp only [if_neg hshort]
    rw [hfirst, hloc]
    simp

/-- A repository on branch `feat` (commit 1) whose only remote reference is
`origin/main` at commit 2, a child of commit 1: `feat` has no same-named
counterpart but is contained in the mainish branch. -/
def repoC6 : Repo :=
  ⟨some ("refs/heads/feat"),
    [⟨("refs/heads/feat"), 1⟩, ⟨("refs/remotes/origin/main"), 2⟩],
    [(1, []), (2, [1])]⟩

/-- Witness for claim C6: the mainish fallback path of the evaluator at a
concrete repository (`origin/feat` absent, `origin/main` containing `feat`). -/
theorem claim_C6_witness : isUpstreamed repoC6 = true := by
  have h := (claim_C6_isUpstreamed_order repoC6).2.2.2.2 ("refs/heads/feat") ("main")
    rfl (by decide) rfl rfl
  rw [h]
  rfl

/-! ## Scan orchestrator (run in cmd/gori.go)

The orchestrator enumerates the scan root's subdirectories, sorts the joined
paths, evaluates every path in a concurrent worker, and the consuming loop
waits for each path's completion flag in sorted order, yielding a status line
only for successfully evaluated, non-clean projects.

Concurrency is modelled as a transition system: a `complete` transition
publishes an arbitrary pending worker's result (any completion order), and an
`advance` transition lets the consumer pass position `idx` once that path's
completion flag is set.  The per-path results map `res` is the value each
worker publishes (`none` models a worker that wrote nothing). -/

/-- Byte-wise lexicographic order on paths (Go `slices.Sort` on strings;
UTF-8 byte order and code-point order agree). -/
def listLe : List Char → List Char → Bool
  | [], _ => true
  | _ :: _, [] => false
  | a :: as, b :: bs => if a = b then listLe as bs else decide (a.toNat < b.toNat)

def strLe (a b : String) : Bool := listLe a.toList b.toList

theorem listLe_total : ∀ (a b : List Char), listLe a b = true ∨ listLe b a = true
  | [], _ => Or.inl rfl
  | _ :: _, [] => Or.inr rfl
  | a :: as, b :: bs => by
    by_cases h : a = b
    · subst h
      simpa [listLe] using listLe_total as bs
    · rcases Nat.lt_or_ge a.toNat b.toNat with hlt | hge
      · left
        simp [listLe, h, hlt]
      · right
        have hne : b.toNat ≠ a.toNat := fun hc => h (Char.ext (UInt32.ext hc.symm))
        have hba : b.toNat < a.toNat := Nat.lt_of_le_of_ne hge hne
        have hba' : b ≠ a := fun hc => h hc.symm
        simp [listLe, hba', hba]

theorem listLe_trans : ∀ (a b c : List Char),
    listLe a b = true → listLe b c = true → listLe a c = true
  | [], _, _, _, _ => rfl
  | _ :: _, [], _, hab, _ => by cases hab
  | _ :: _, _ :: _, [], _, hbc => by cases hbc
  | a :: as, b :: bs, c :: cs, hab, hbc => by
    by_cases h1 : a = b <;> by_cases h2 : b = c
    · subst h1; subst h2
      simp only [listLe, if_pos rfl] at hab hbc ⊢
      exact listLe_trans as bs cs hab hbc
    · subst h1
      simp only [listLe] at hbc ⊢
      simpa [h2] using hbc
    · subst h2
      simp only [listLe] at hab ⊢
      simpa [h1] using hab
    · simp only [listLe, if_neg h1, if_neg h2] at hab hbc
      have hac : a.toNat < c.toNat :=
        Nat.lt_trans (by simpa using hab) (by simpa using hbc)
      have hne : a ≠ c := fun hc => Nat.lt_irrefl _ (hc ▸ hac)
      simp [listLe, hne, hac]

instance : IsTotal String (fun a b => strLe a b = true) := ⟨fun _ _ => listLe_total _ _⟩

instance : IsTrans String (fun a b => strLe a b = true) :=
  ⟨fun _ _ _ hab hbc => listLe_trans _ _ _ hab hbc⟩

def sortedRepoPaths (scanPath : String) (names : List String) : List String :=
  List.insertionSort (fun a b => strLe a b = true)
    (names.map (fun n => goJoin scanPath n))

/-- The status lines contributed by one path's stored result: nothing for a
missing or errored result, and the project itself exactly when it has at
least one unresolved finding. -/
def yieldOf (r : Option (Except String ProjectStatus)) : List ProjectStatus :=
  match r with
  | some (.ok p) => if p.IsDirty || p.HasStash || !p.Upstreamed then [p] else []
  | _ => []

def orchOutput (res : String → Option (Except String ProjectStatus)) :
    List String → List ProjectStatus
  | [] => []
  | p :: rest => yieldOf (res p) ++ orchOutput res rest

structure OrchState where
  pending : List String
  doneSet : List String
  idx : Nat
  out : List ProjectStatus

/-- One scheduler step: either some pending worker completes (in any order),
or the consumer, seeing the completion flag of the next path in sorted order,
reads that path's result and yields its status lines. -/
inductive OrchStep (sorted : List String)
    (res : String → Option (Except String ProjectStatus)) :
    OrchState → OrchState → Prop where
  | complete (p : String) (st : OrchState) (hp : p ∈ st.pending) :
      OrchStep sorted res st
        { pending := st.pending.erase p, doneSet := p :: st.doneSet,
          idx := st.idx, out := st.out }
  | advance (st : OrchState) (h : st.idx < sorted.length)
      (hd : sorted.get ⟨st.idx, h⟩ ∈ st.doneSet) :
      OrchStep sorted res st
        { pending := st.pending, doneSet := st.doneSet, idx := st.idx + 1,
          out := st.out ++ yieldOf (res (sorted.get ⟨st.idx, h⟩)) }

def initOrch (sorted : List String) : OrchState :=
  { pending := sorted, doneSet := [], idx := 0, out := [] }

theorem orchOutput_append (res : String → Option (Except String ProjectStatus))
    (l1 l2 : List String) :
    orchOutput res (l1 ++ l2) = orchOutput res l1 ++ orchOutput res l2 := by
  induction l1 with
  | nil => rfl
  | cons p rest ih => simp [orchOutput, ih]

/-- The consumer's output is always the canonical output of the sorted prefix
it has passed, whatever the completion order was. -/
theorem orch_out_invariant (sorted : List String)
    (res : String → Option (Except String ProjectStatus)) (s s' : OrchState)
    (htr : Relation.ReflTransGen (OrchStep sorted res) s s')
    (hinv : s.out = orchOutput res (sorted.take s.idx)) :
    s'.out = orchOutput res (sorted.take s'.idx) := by
  induction htr with
  | refl => exact hinv
  | @tail b c hR hstep ih =>
    cases hstep with
    | complete p st hp => exact ih
    | advance st h hd =>
      have ht : sorted.take (b.idx + 1) = sorted.take b.idx ++ [sorted.get ⟨b.idx, h⟩] := by
        rw [List.take_succ]
        simp [List.getElem?_eq_getElem h, List.get_eq_getElem]
      simp only [ht, orchOutput_append, ih, List.get_eq_getElem]
      simp [orchOutput]

/-- Claim C3: for every set of candidate subdirectories of the scan root and
every completion order of the concurrent evaluations (every maximal run of
the transition system), the results handed to the display/interactive stage
are exactly the per-path yields in lexicographically sorted path order. -/
theorem claim_C3_ordered_delivery (scanPath : String) (names : List String)
    (res : String → Option (Except String ProjectStatus)) (s : OrchState)
    (htr : Relation.ReflTransGen (OrchStep (sortedRepoPaths scanPath names) res)
      (initOrch (sortedRepoPaths scanPath names)) s)
    (hdone : s.idx = (sortedRepoPaths scanPath names).length) :
    s.out = orchOutput res (sortedRepoPaths scanPath names)
    ∧ List.Sorted (fun a b => strLe a b = true) (sortedRepoPaths scanPath names) := by
  constructor
  · have h := orch_out_invariant _ res _ _ htr (by simp [initOrch, orchOutput])
    rw [hdone, List.take_length] at h
    exact h
  · exact List.sorted_insertionSort _ _

/-- Every worker succeeds and reports a dirty project, so every path yields a
line. -/
def resW3 : String → Option (Except String ProjectStatus) :=
  fun p => some (.ok (NewProject p true false true))

def c3sorted : List String := sortedRepoPaths ("/s") [("b"), ("a")]

def c3s0 : OrchState := initOrch c3sorted
def c3s1 : OrchState := ⟨[("/s/a")], [("/s/b")], 0, []⟩
def c3s2 : OrchState := ⟨[], [("/s/a"), ("/s/b")], 0, []⟩
def c3s3 : OrchState := ⟨[], [("/s/a"), ("/s/b")], 1, [NewProject ("/s/a") true false true]⟩
def c3s4 : OrchState := ⟨[], [("/s/a"), ("/s/b")], 2,
  [NewProject ("/s/a") true false true, NewProject ("/s/b") true false true]⟩

/-- A complete run in which the workers finish in reverse order (`/s/b`
first). -/
def c3trace : Relation.ReflTransGen (OrchStep c3sorted resW3) c3s0 c3s4 :=
  Relation.ReflTransGen.tail
    (Relation.ReflTransGen.tail
      (Relation.ReflTransGen.tail
        (Relation.ReflTransGen.single (OrchStep.complete ("/s/b") c3s0 (by decide)))
        (OrchStep.complete ("/s/a") c3s1 (by decide)))
      (OrchStep.advance c3s2 (by decide) (by decide)))
    (OrchStep.advance c3s3 (by decide) (by decide))

/-- Witness for claim C3: candidates `[b, a]` completed out of order still
yield `[a, b]`. -/
theorem claim_C3_witness : c3s4.out = orchOutput resW3 c3sorted :=
  (claim_C3_ordered_delivery ("/s") [("b"), ("a")] resW3 c3s4 c3trace (by decide)).1

/-! ## The per-path worker (run in cmd/gori.go, lines 102-151) -/

/-- The environment one worker observes for its path: the outcomes of the
three fallible backend calls (`git.PlainOpen`, `repo.Worktree()`,
`wt.Status()`), the working-tree verdict and its printable form, the stash
presence check, and the opened repository used for the upstream decision. -/
structure PathEnv where
  openErr : Option String
  worktreeErr : Option String
  statusErr : Option String
  isClean : Bool
  statusText : String
  hasStash : Bool
  gitRepo : Repo

/-- The worker body: each backend failure stores a per-path error and stops;
otherwise the project is built (`NewProject`), non-clean projects go through
the suppression engine, and the verbatim status text is attached only when
the project is still dirty and the caller opted in. -/
def evalPath (now : DateTime) (cwd scanPath : String) (config : Option IgnoreConfig)
    (showChanges : Bool) (repoPath : String) (env : PathEnv) :
    Except String ProjectStatus :=
  match env.openErr with
  | some e => .error (("opening repo: ") ++ e)
  | none =>
    match env.worktreeErr with
    | some e => .error (("getting worktree: ") ++ e)
    | none =>
      match env.statusErr with
      | some e => .error (("getting repo status: ") ++ e)
      | none =>
        let project := NewProject repoPath (!env.isClean) env.hasStash
          (isUpstreamed env.gitRepo)
        let project :=
          if !project.Clean then
            let project := ApplySnooze now cwd repoPath project config scanPath
            if project.IsDirty && showChanges then
              { project with StatusString := env.statusText }
            else project
          else project
        .ok project

theorem orchOutput_filter_of_yield_nil
    (res : String → Option (Except String ProjectStatus)) (p : String)
    (hnil : yieldOf (res p) = []) :
    ∀ l : List String, orchOutput res l = orchOutput res (l.filter (fun q => q ≠ p))
  | [] => rfl
  | q :: rest => by
    by_cases hq : q = p
    · subst hq
      simp [orchOutput, List.filter, hnil, orchOutput_filter_of_yield_nil res q hnil rest]
    · simp [orchOutput, List.filter, hq, orchOutput_filter_of_yield_nil res p hnil rest]

/-- Claim C8: a path whose repository fails to open, whose worktree cannot be
obtained, or whose status cannot be computed stores a per-path error, yields
no status line at all (in particular never a false clean line), and a
complete scan still delivers exactly the yields of all sibling paths in
order. -/
theorem claim_C8_errors_skipped (now : DateTime) (cwd scanPath : String)
    (config : Option IgnoreConfig) (showChanges : Bool) (names : List String)
    (envs : String → PathEnv) (p : String) (s : OrchState)
    (hbad : (envs p).openErr.isSome = true ∨ (envs p).worktreeErr.isSome = true ∨
      (envs p).statusErr.isSome = true)
    (htr : Relation.ReflTransGen
      (OrchStep (sortedRepoPaths scanPath names)
        (fun q => some (evalPath now cwd scanPath config showChanges q (envs q))))
      (initOrch (sortedRepoPaths scanPath names)) s)
    (hdone : s.idx = (sortedRepoPaths scanPath names).length) :
    (∃ msg, evalPath now cwd scanPath config showChanges p (envs p) = .error msg)
    ∧ yieldOf (some (evalPath now cwd scanPath config showChanges p (envs p))) = []
    ∧ s.out = orchOutput
        (fun q => some (evalPath now cwd scanPath config showChanges q (envs q)))
        ((sortedRepoPaths scanPath names).filter (fun q => q ≠ p)) := by
  have herr : ∃ msg, evalPath now cwd scanPath config showChanges p (envs p) = .error msg := by
    unfold evalPath
    cases ho : (envs p).openErr with
    | some e => exact ⟨_, rfl⟩
    | none =>
      cases hw : (envs p).worktreeErr with
      | some e => exact ⟨_, rfl⟩
      | none =>
        cases hs : (envs p).statusErr with
        | some e => exact ⟨_, rfl⟩
        | none =>
          rcases hbad with hb | hb | hb
          · rw [ho] at hb; cases hb
          · rw [hw] at hb; cases hb
          · rw [hs] at hb; cases hb
  obtain ⟨msg, hmsg⟩ := herr
  have hnil : yieldOf (some (evalPath now cwd scanPath config showChanges p (envs p))) = [] := by
    rw [hmsg]
    rfl
  refine ⟨⟨msg, hmsg⟩, hnil, ?_⟩
  have h := orch_out_invariant _ _ _ _ htr (by simp [initOrch, orchOutput])
  rw [hdone, List.take_length] at h
  rw [h]
  exact orchOutput_filter_of_yield_nil _ p hnil _

def envGoodW : PathEnv :=
  ⟨none, none, none, false, (""), false, ⟨some ("HEAD"), [], []⟩⟩

/-- An environment whose repository fails to open. -/
def envBadW : PathEnv :=
  ⟨some ("repository does not exist"), none, none, true, (""), false, ⟨none, [], []⟩⟩

def envsC8 : String → PathEnv := fun q => if q = ("/s/a") then envBadW else envGoodW

def resC8 : String → Option (Except String ProjectStatus) :=
  fun q => some (evalPath nowW ("/c") ("/s") none false q (envsC8 q))

def c8sorted : List String := sortedRepoPaths ("/s") [("a"), ("b")]

def c8s0 : OrchState := initOrch c8sorted
def c8s1 : OrchState := ⟨[("/s/a")], [("/s/b")], 0, []⟩
def c8s2 : OrchState := ⟨[], [("/s/a"), ("/s/b")], 0, []⟩
def c8s3 : OrchState := ⟨[], [("/s/a"), ("/s/b")], 1, []⟩
def c8s4 : OrchState := ⟨[], [("/s/a"), ("/s/b")], 2, [NewProject ("/s/b") true false false]⟩

def c8trace : Relation.ReflTransGen (OrchStep c8sorted resC8) c8s0 c8s4 :=
  Relation.ReflTransGen.tail
    (Relation.ReflTransGen.tail
      (Relation.ReflTransGen.tail
        (Relation.ReflTransGen.single (OrchStep.complete ("/s/b") c8s0 (by decide)))
        (OrchStep.complete ("/s/a") c8s1 (by decide)))
      (OrchStep.advance c8s2 (by decide) (by decide)))
    (OrchStep.advance c8s3 (by decide) (by decide))

/-- Witness for claim C8: with `/s/a` failing to open, a full scan yields
only `/s/b`'s line. -/
theorem claim_C8_witness :
    c8s4.out = orchOutput resC8 (c8sorted.filter (fun q => q ≠ ("/s/a"))) :=
  (claim_C8_errors_skipped nowW ("/c") ("/s") none false [("a"), ("b")] envsC8
    ("/s/a") c8s4 (Or.inl (by decide)) c8trace (by decide)).2.2
